import Mathlib

/-!
Verification of the compaction core of the mini-lsm storage engine
(src/mini-lsm-starter/src/compact.rs and src/mini-lsm-starter/src/table.rs),
as a shallow embedding in Lean 4.

Bytes are modelled as natural numbers (values below 256 in well-formed data),
byte buffers as lists of naturals.  Machine-integer casts (`as u32`, `as u16`)
are modelled by explicit reduction modulo 2^32 / 2^16.  Fallible operations
return `Option` or `Except`; Rust panics (unwrap of `None`, debug-mode integer
underflow, `unimplemented!()`, failed `assert!`) are modelled as distinguished
outcomes, separate from `Err` returns.
-/

namespace MiniLsm

/-- A key is an opaque byte sequence (`KeyBytes` in the source). -/
abbrev KeyB := List Nat

/-- Block metadata record from table.rs: offset of the data block plus its
first and last key. -/
structure BlockMeta where
  offset : Nat
  first_key : KeyB
  last_key : KeyB
  deriving Repr, DecidableEq

/-- Big-endian bytes of `n` as a `u32` (`put_u32`): the cast `as u32` reduces
modulo 2^32 first. -/
def putU32 (n : Nat) : List Nat :=
  [n % 4294967296 / 16777216 % 256, n / 65536 % 256, n / 256 % 256, n % 256]

/-- Big-endian bytes of `n` as a `u16` (`put_u16`): the cast `as u16` reduces
modulo 2^16 first. -/
def putU16 (n : Nat) : List Nat :=
  [n % 65536 / 256 % 256, n % 256]

/-- Big-endian `u32` read from the first four bytes of a buffer
(as in `get_u32`, once the four bytes are in hand). -/
def getU32 (bs : List Nat) : Nat :=
  match bs with
  | b0 :: b1 :: b2 :: b3 :: _ => b0 * 16777216 + b1 * 65536 + b2 * 256 + b3
  | _ => 0

/-- Big-endian `u16` read from the first two bytes of a buffer. -/
def getU16 (bs : List Nat) : Nat :=
  match bs with
  | b0 :: b1 :: _ => b0 * 256 + b1
  | _ => 0

/-- Take `n` bytes off the front of a buffer; `none` when fewer remain
(the `bytes` crate getters and `copy_to_bytes` panic in that case). -/
def readBytes (n : Nat) (buf : List Nat) : Option (List Nat × List Nat) :=
  if n ≤ buf.length then some (buf.take n, buf.drop n) else none

/-- The bytes appended for one meta by the loop body of
`encode_block_metas` (table.rs lines 46-52): `offset` as big-endian u32,
`first_key` length as big-endian u16, the `first_key` bytes, `last_key`
length as big-endian u16, the `last_key` bytes. -/
def encodeMeta (m : BlockMeta) : List Nat :=
  putU32 m.offset ++ putU16 m.first_key.length ++ m.first_key ++
    putU16 m.last_key.length ++ m.last_key

/-- `BlockMeta::encode_block_metas` (table.rs lines 44-53): the records of all
metas appended in sequence. -/
def encode_block_metas (metas : List BlockMeta) : List Nat :=
  metas.flatMap encodeMeta

/-- One iteration of the decode loop body of `decode_block_metas`: read a u32
offset, a u16 length-prefixed first key and a u16 length-prefixed last key,
returning the decoded meta and the remaining buffer; `none` models the panic
of the `bytes` getters on a truncated record. -/
def decodeOneMeta (buf : List Nat) : Option (BlockMeta × List Nat) := do
  let (offB, r1) ← readBytes 4 buf
  let (fkLenB, r2) ← readBytes 2 r1
  let (fk, r3) ← readBytes (getU16 fkLenB) r2
  let (lkLenB, r4) ← readBytes 2 r3
  let (lk, r5) ← readBytes (getU16 lkLenB) r4
  some (⟨getU32 offB, fk, lk⟩, r5)

/-- The `while buf.has_remaining()` loop of `decode_block_metas`, with fuel:
every iteration consumes at least four bytes (or panics), so fuel equal to the
buffer length always suffices. -/
def decodeMetasAux (fuel : Nat) (buf : List Nat) : Option (List BlockMeta) :=
  match buf with
  | [] => some []
  | _ :: _ =>
    match fuel with
    | 0 => none
    | fuel + 1 => do
        let (m, rest) ← decodeOneMeta buf
        let ms ← decodeMetasAux fuel rest
        some (m :: ms)

/-- `BlockMeta::decode_block_metas` (table.rs lines 56-71): loop over the
buffer until empty, decoding one record per iteration.  `none` models the
panic on a truncated record (the Rust `Result` is always `Ok`). -/
def decode_block_metas (buf : List Nat) : Option (List BlockMeta) :=
  decodeMetasAux buf.length buf

/-- A meta record is well formed when its offset fits in a u32 and both key
lengths fit in a u16, so that the casts in `encode_block_metas` lose nothing. -/
def metaWellFormed (m : BlockMeta) : Prop :=
  m.offset < 4294967296 ∧ m.first_key.length < 65536 ∧ m.last_key.length < 65536

instance (m : BlockMeta) : Decidable (metaWellFormed m) := by
  unfold metaWellFormed; infer_instance

lemma readBytes_append (xs ys : List Nat) :
    readBytes xs.length (xs ++ ys) = some (xs, ys) := by
  simp [readBytes, List.take_left, List.drop_left]

lemma readBytes_putU32 (n : Nat) (ys : List Nat) :
    readBytes 4 (putU32 n ++ ys) = some (putU32 n, ys) := by
  have h4 : (putU32 n).length = 4 := rfl
  rw [← h4, readBytes_append]

lemma readBytes_putU16 (n : Nat) (ys : List Nat) :
    readBytes 2 (putU16 n ++ ys) = some (putU16 n, ys) := by
  have h2 : (putU16 n).length = 2 := rfl
  rw [← h2, readBytes_append]

lemma getU32_putU32 (n : Nat) (h : n < 4294967296) : getU32 (putU32 n) = n := by
  simp only [putU32, getU32]
  omega

lemma getU16_putU16 (n : Nat) (h : n < 65536) : getU16 (putU16 n) = n := by
  simp only [putU16, getU16]
  omega

lemma decodeOneMeta_encode (m : BlockMeta) (rest : List Nat)
    (h : metaWellFormed m) :
    decodeOneMeta (encodeMeta m ++ rest) = some (m, rest) := by
  obtain ⟨h1, h2, h3⟩ := h
  simp only [encodeMeta, List.append_assoc]
  rw [decodeOneMeta, readBytes_putU32]
  simp only [Option.bind_eq_bind, Option.some_bind]
  rw [readBytes_putU16]
  simp only [Option.bind_eq_bind, Option.some_bind]
  rw [getU16_putU16 _ h2, readBytes_append]
  simp only [Option.bind_eq_bind, Option.some_bind]
  rw [readBytes_putU16]
  simp only [Option.bind_eq_bind, Option.some_bind]
  rw [getU16_putU16 _ h3, readBytes_append]
  simp only [Option.bind_eq_bind, Option.some_bind, getU32_putU32 _ h1]

lemma encodeMeta_length (m : BlockMeta) :
    (encodeMeta m).length = 8 + m.first_key.length + m.last_key.length := by
  simp [encodeMeta, putU32, putU16]
  omega

lemma encode_block_metas_length_ge (ms : List BlockMeta) :
    ms.length ≤ (encode_block_metas ms).length := by
  induction ms with
  | nil => simp [encode_block_metas]
  | cons m ms ih =>
    simp only [encode_block_metas, List.flatMap_cons, List.length_append,
      List.length_cons] at *
    have := encodeMeta_length m
    omega

lemma decodeMetasAux_encode (ms : List BlockMeta) :
    ∀ fuel, ms.length ≤ fuel → (∀ m ∈ ms, metaWellFormed m) →
      decodeMetasAux fuel (encode_block_metas ms) = some ms := by
  induction ms with
  | nil => intro fuel _ _; simp [encode_block_metas, decodeMetasAux]
  | cons m ms ih =>
    intro fuel hf hwf
    obtain ⟨f, rfl⟩ : ∃ f, fuel = f + 1 := ⟨fuel - 1, by simp at hf; omega⟩
    have hm : metaWellFormed m := hwf m (by simp)
    have hrest : ∀ x ∈ ms, metaWellFormed x := fun x hx => hwf x (by simp [hx])
    have henc : encode_block_metas (m :: ms) =
        encodeMeta m ++ encode_block_metas ms := by
      simp [encode_block_metas]
    rw [henc]
    have hcons : ∃ b bs, encodeMeta m ++ encode_block_metas ms = b :: bs := by
      cases hx : encodeMeta m ++ encode_block_metas ms with
      | nil =>
        have := congrArg List.length hx
        simp [encodeMeta_length] at this
      | cons b bs => exact ⟨b, bs, rfl⟩
    obtain ⟨b, bs, hbs⟩ := hcons
    rw [hbs, decodeMetasAux, ← hbs, decodeOneMeta_encode m _ hm]
    simp only [Option.bind_eq_bind, Option.some_bind]
    rw [ih f (by simp at hf; omega) hrest]
    rfl

/-- C4: decoding the encoding of any well-formed meta sequence (offsets fit
in a u32, key lengths fit in a u16) returns exactly the original sequence. -/
theorem decode_encode_block_metas_roundtrip (ms : List BlockMeta)
    (h : ∀ m ∈ ms, metaWellFormed m) :
    decode_block_metas (encode_block_metas ms) = some ms := by
  unfold decode_block_metas
  exact decodeMetasAux_encode ms _ (encode_block_metas_length_ge ms) h

/-- Sample meta sequence used to witness the round-trip law. -/
def sampleMetas : List BlockMeta :=
  [⟨0, [1, 2], [3]⟩, ⟨47, [5], [6, 7, 8]⟩]

/-- Witness for C4 at a concrete two-element meta sequence. -/
theorem decode_encode_block_metas_roundtrip_witness :
    (∀ m ∈ sampleMetas, metaWellFormed m) ∧
      decode_block_metas (encode_block_metas sampleMetas) = some sampleMetas :=
  ⟨by decide, decode_encode_block_metas_roundtrip sampleMetas (by decide)⟩

instance : Inhabited BlockMeta := ⟨⟨0, [], []⟩⟩

/-- Byte-wise lexicographic `≤` on keys, as Rust derives it for byte slices
(`KeySlice` ordering). -/
def keyLe : KeyB → KeyB → Bool
  | [], _ => true
  | _ :: _, [] => false
  | x :: xs, y :: ys => if x < y then true else if y < x then false else keyLe xs ys

/-- The binary-search loop of Rust `slice::partition_point` /
`binary_search_by`: maintain `[left, right)`, probe the middle, move `left`
past the middle when the predicate holds there and `right` onto the middle
otherwise; the predicate-comparator never answers `Equal`, so the search
always ends at `left`. -/
def partitionPointGo {α : Type} [Inhabited α] (p : α → Bool) (xs : List α)
    (left right : Nat) : Nat :=
  if left < right then
    if p (xs.getD (left + (right - left) / 2) default) then
      partitionPointGo p xs (left + (right - left) / 2 + 1) right
    else
      partitionPointGo p xs left (left + (right - left) / 2)
  else left
termination_by right - left
decreasing_by all_goals omega

/-- Rust `slice::partition_point`, the search above over the whole slice. -/
def partition_point {α : Type} [Inhabited α] (p : α → Bool) (xs : List α) : Nat :=
  partitionPointGo p xs 0 xs.length

/-- `SsTable::find_block_idx` (table.rs lines 214-218):
`partition_point(first_key ≤ key).saturating_sub(1)`; on `Nat`, saturating
subtraction is ordinary truncated subtraction. -/
def find_block_idx (metas : List BlockMeta) (key : KeyB) : Nat :=
  partition_point (fun m => keyLe m.first_key key) metas - 1

lemma partitionPointGo_eq {α : Type} [Inhabited α] (p : α → Bool) (xs : List α)
    (n : Nat) (hp : ∀ i, i < xs.length → (p (xs.getD i default) = true ↔ i < n))
    (left right : Nat) (h1 : left ≤ n) (h2 : n ≤ right) (h3 : right ≤ xs.length) :
    partitionPointGo p xs left right = n := by
  rw [partitionPointGo]
  by_cases h : left < right
  · rw [if_pos h]
    have hmid1 : left ≤ left + (right - left) / 2 := by omega
    have hmid2 : left + (right - left) / 2 < right := by omega
    by_cases hpm : p (xs.getD (left + (right - left) / 2) default) = true
    · rw [if_pos hpm]
      have : left + (right - left) / 2 < n :=
        (hp _ (by omega)).mp hpm
      exact partitionPointGo_eq p xs n hp _ right (by omega) h2 h3
    · rw [if_neg hpm]
      have : ¬ (left + (right - left) / 2 < n) := fun hlt =>
        hpm ((hp _ (by omega)).mpr hlt)
      exact partitionPointGo_eq p xs n hp left _ h1 (by omega) (by omega)
  · rw [if_neg h]
    omega
termination_by right - left
decreasing_by all_goals omega

lemma exists_flip_point (p : Nat → Bool) :
    ∀ len, (∀ j, j < len → ∀ i, i ≤ j → p j = true → p i = true) →
      ∃ n, n ≤ len ∧ ∀ i, i < len → (p i = true ↔ i < n) := by
  intro len
  induction len with
  | zero => intro _; exact ⟨0, le_refl 0, fun i hi => absurd hi (by omega)⟩
  | succ k ih =>
    intro hmono
    obtain ⟨n, hn, hp⟩ := ih (fun j hj i hij ht => hmono j (by omega) i hij ht)
    by_cases hk : p k = true
    · refine ⟨k + 1, le_refl _, fun i hi => ?_⟩
      exact ⟨fun _ => by omega, fun _ => hmono k (by omega) i (by omega) hk⟩
    · refine ⟨n, by omega, fun i hi => ?_⟩
      by_cases hik : i < k
      · exact hp i hik
      · have hike : i = k := by omega
        subst hike
        exact ⟨fun ht => absurd ht hk, fun hlt => absurd (by omega : n ≤ i) (by omega)⟩

/-- C7: over metas whose `first_key ≤ key` predicate is downward closed (as
the sortedness invariant of an SST guarantees), `find_block_idx` returns 0
when no meta has `first_key ≤ key`, and otherwise returns the largest index
`i` with `metas[i].first_key ≤ key`. -/
theorem find_block_idx_largest_le (metas : List BlockMeta) (key : KeyB)
    (hmono : ∀ j, j < metas.length → ∀ i, i ≤ j →
      keyLe (metas.getD j default).first_key key = true →
      keyLe (metas.getD i default).first_key key = true) :
    ((∀ i, i < metas.length →
        keyLe (metas.getD i default).first_key key = false) →
      find_block_idx metas key = 0) ∧
    (∀ i, i < metas.length →
      keyLe (metas.getD i default).first_key key = true →
      (find_block_idx metas key < metas.length ∧
       keyLe (metas.getD (find_block_idx metas key) default).first_key key = true ∧
       ∀ j, j < metas.length →
         keyLe (metas.getD j default).first_key key = true →
         j ≤ find_block_idx metas key)) := by
  obtain ⟨n, hn, hp⟩ :=
    exists_flip_point (fun i => keyLe (metas.getD i default).first_key key)
      metas.length hmono
  have hpp : partition_point (fun m => keyLe m.first_key key) metas = n := by
    unfold partition_point
    refine partitionPointGo_eq _ metas n ?_ 0 metas.length (by omega) hn le_rfl
    intro i hi
    simpa using hp i hi
  have hfb : find_block_idx metas key = n - 1 := by
    unfold find_block_idx
    rw [hpp]
  constructor
  · intro hnone
    have hn0 : n = 0 := by
      by_contra hne
      have h0 : (0 : Nat) < n := by omega
      have h0len : (0 : Nat) < metas.length := by omega
      have := (hp 0 h0len).mpr h0
      rw [hnone 0 h0len] at this
      exact Bool.false_ne_true this
    rw [hfb, hn0]
  · intro i hi hti
    have hin : i < n := (hp i hi).mp hti
    have hn1 : 1 ≤ n := by omega
    refine ⟨by omega, ?_, ?_⟩
    · rw [hfb]
      exact (hp (n - 1) (by omega)).mpr (by omega)
    · intro j hj htj
      have := (hp j hj).mp htj
      omega

/-- Witness for C7: three metas with first keys [1], [3], [7] and probe key
[5]; the largest index whose first key is at most the probe is 1. -/
theorem find_block_idx_largest_le_witness :
    (∀ j, j < ([⟨0, [1], [2]⟩, ⟨10, [3], [4]⟩, ⟨20, [7], [8]⟩] :
        List BlockMeta).length → ∀ i, i ≤ j →
      keyLe (([⟨0, [1], [2]⟩, ⟨10, [3], [4]⟩, ⟨20, [7], [8]⟩] :
        List BlockMeta).getD j default).first_key [5] = true →
      keyLe (([⟨0, [1], [2]⟩, ⟨10, [3], [4]⟩, ⟨20, [7], [8]⟩] :
        List BlockMeta).getD i default).first_key [5] = true) ∧
    find_block_idx [⟨0, [1], [2]⟩, ⟨10, [3], [4]⟩, ⟨20, [7], [8]⟩] [5] = 1 := by
  have hmono : ∀ j, j < ([⟨0, [1], [2]⟩, ⟨10, [3], [4]⟩, ⟨20, [7], [8]⟩] :
      List BlockMeta).length → ∀ i, i ≤ j →
      keyLe (([⟨0, [1], [2]⟩, ⟨10, [3], [4]⟩, ⟨20, [7], [8]⟩] :
        List BlockMeta).getD j default).first_key [5] = true →
      keyLe (([⟨0, [1], [2]⟩, ⟨10, [3], [4]⟩, ⟨20, [7], [8]⟩] :
        List BlockMeta).getD i default).first_key [5] = true := by decide
  refine ⟨hmono, ?_⟩
  have h := (find_block_idx_largest_le
    [⟨0, [1], [2]⟩, ⟨10, [3], [4]⟩, ⟨20, [7], [8]⟩] [5] hmono).2 1 (by decide)
    (by decide)
  obtain ⟨hlt, hkey, hmax⟩ := h
  have h1 : 1 ≤ find_block_idx [⟨0, [1], [2]⟩, ⟨10, [3], [4]⟩, ⟨20, [7], [8]⟩] [5] :=
    hmax 1 (by decide) (by decide)
  have h2 : keyLe (([⟨0, [1], [2]⟩, ⟨10, [3], [4]⟩, ⟨20, [7], [8]⟩] :
      List BlockMeta).getD 2 default).first_key [5] = false := by decide
  have h3 : find_block_idx [⟨0, [1], [2]⟩, ⟨10, [3], [4]⟩, ⟨20, [7], [8]⟩] [5] ≠ 2 := by
    intro he
    rw [he] at hkey
    rw [h2] at hkey
    exact Bool.false_ne_true hkey
  simp only [List.length_cons, List.length_nil] at hlt
  omega

/-- A key/value pair yielded by a storage iterator. -/
structure Entry where
  key : List Nat
  value : List Nat
  deriving Repr, DecidableEq

/-- Modelled from the spec: `SsTableBuilder` (builder.rs is not among the
provided sources).  Per §4.3 the builder streams added pairs and
`estimated_size()` returns the total encoded bytes so far; we model the
builder state as the list of entries added and its estimated size as the
total key and value bytes of those entries. -/
def estimated_size (b : List Entry) : Nat :=
  (b.map (fun e => e.key.length + e.value.length)).sum

/-- The `while iter.is_valid()` loop of `compact_generate_sst_from_iter`
(compact.rs lines 124-163) plus the trailing finalization of a leftover
builder: the iterator is the list of entries it will yield; `builder` is the
current `Option<SsTableBuilder>`; each emitted SST is the list of entries
added to the builder that produced it.  Per iteration: create a builder if
none; when compacting to the bottom level add the entry only if its value is
non-empty, otherwise always add it; advance the iterator; if the estimated
size reached `target_sst_size`, build the SST and clear the builder. -/
def compactGenGo (target : Nat) (bottom : Bool) :
    List Entry → Option (List Entry) → List (List Entry)
  | [], builder =>
      match builder with
      | some b => [b]
      | none => []
  | e :: rest, builder =>
      let b0 := builder.getD []
      let b1 :=
        if bottom then (if e.value.isEmpty then b0 else b0 ++ [e])
        else b0 ++ [e]
      if target ≤ estimated_size b1 then
        b1 :: compactGenGo target bottom rest none
      else
        compactGenGo target bottom rest (some b1)

/-- `LsmStorageInner::compact_generate_sst_from_iter` (compact.rs lines
117-165), with the iterator given as the list of entries it yields and each
output SST represented by its entry list. -/
def compact_generate_sst_from_iter (target : Nat) (entries : List Entry)
    (bottom : Bool) : List (List Entry) :=
  compactGenGo target bottom entries none

/-- The entries the loop adds to builders: all of them, or only those with a
non-empty value when compacting to the bottom level. -/
def keptEntries (bottom : Bool) (entries : List Entry) : List Entry :=
  if bottom then entries.filter (fun e => !e.value.isEmpty) else entries

lemma compactGenGo_flatten (target : Nat) (bottom : Bool) (entries : List Entry) :
    ∀ builder : Option (List Entry),
      (compactGenGo target bottom entries builder).flatten
        = builder.getD [] ++ keptEntries bottom entries := by
  induction entries with
  | nil =>
    intro builder
    cases builder <;> simp [compactGenGo, keptEntries]
  | cons e rest ih =>
    intro builder
    rw [compactGenGo]
    by_cases hb : target ≤ estimated_size
        (if bottom then (if e.value.isEmpty then builder.getD [] else builder.getD [] ++ [e])
         else builder.getD [] ++ [e])
    · rw [if_pos hb]
      rw [List.flatten_cons, ih none]
      cases bottom with
      | false => simp [keptEntries]
      | true =>
        by_cases hv : e.value.isEmpty
        · simp [keptEntries, hv]
        · simp [keptEntries, hv]
    · rw [if_neg hb]
      rw [ih]
      cases bottom with
      | false => simp [keptEntries]
      | true =>
        by_cases hv : e.value.isEmpty
        · simp [keptEntries, hv]
        · simp [keptEntries, hv]

/-- C1: streaming an iterator through `compact_generate_sst_from_iter` at the
bottom level keeps exactly the entries with non-empty values (so no tombstone
reaches any output SST), and off the bottom level keeps every entry
unchanged, whatever the target SST size. -/
theorem compact_generate_keeps_exactly_non_tombstones
    (target : Nat) (entries : List Entry) :
    ((compact_generate_sst_from_iter target entries true).flatten
        = entries.filter (fun e => !e.value.isEmpty)) ∧
    (∀ out ∈ compact_generate_sst_from_iter target entries true,
      ∀ e ∈ out, e.value ≠ []) ∧
    ((compact_generate_sst_from_iter target entries false).flatten = entries) := by
  have h1 := compactGenGo_flatten target true entries none
  have h2 := compactGenGo_flatten target false entries none
  have hkt : keptEntries true entries = entries.filter (fun e => !e.value.isEmpty) := rfl
  have hkf : keptEntries false entries = entries := rfl
  rw [hkt] at h1
  rw [hkf] at h2
  simp only [Option.getD_none, List.nil_append] at h1 h2
  refine ⟨h1, ?_, h2⟩
  intro out hout e he
  have hmem : e ∈ (compact_generate_sst_from_iter target entries true).flatten :=
    List.mem_flatten.mpr ⟨out, hout, he⟩
  unfold compact_generate_sst_from_iter at hmem
  rw [h1] at hmem
  have := (List.mem_filter.mp hmem).2
  intro hnil
  rw [hnil] at this
  simp at this

lemma compactGenGo_all_tombstones (target : Nat) (entries : List Entry)
    (htarget : 0 < target) (hall : ∀ e ∈ entries, e.value = []) :
    compactGenGo target true entries (some []) = [[]] := by
  induction entries with
  | nil => rfl
  | cons e rest ih =>
    rw [compactGenGo]
    have hv : e.value.isEmpty = true := by
      rw [hall e (by simp)]; rfl
    simp only [Option.getD_some, hv, if_pos rfl, if_true]
    rw [if_neg (by simp [estimated_size]; omega)]
    exact ih (fun x hx => hall x (by simp [hx]))

/-- C9: an initially invalid iterator produces no output SST at all (no file
is created), while a non-empty all-tombstone iterator at the bottom level
still creates and finalizes a builder, emitting exactly one output SST with
zero entries, for any positive target SST size. -/
theorem compact_generate_empty_and_all_tombstone_cases
    (target : Nat) (entries : List Entry) (htarget : 0 < target)
    (hne : entries ≠ []) (hall : ∀ e ∈ entries, e.value = []) :
    (∀ bottom : Bool, compact_generate_sst_from_iter target [] bottom = []) ∧
    compact_generate_sst_from_iter target entries true = [[]] := by
  refine ⟨fun bottom => rfl, ?_⟩
  cases entries with
  | nil => exact absurd rfl hne
  | cons e rest =>
    unfold compact_generate_sst_from_iter
    rw [compactGenGo]
    have hv : e.value.isEmpty = true := by
      rw [hall e (by simp)]; rfl
    simp only [Option.getD_none, hv, if_pos rfl, if_true]
    rw [if_neg (by simp [estimated_size]; omega)]
    exact compactGenGo_all_tombstones target rest htarget
      (fun x hx => hall x (by simp [hx]))

/-- Witness for C9: a single tombstone entry with target size 16 yields
exactly one empty output SST, and the empty iterator yields none. -/
theorem compact_generate_empty_and_all_tombstone_cases_witness :
    (0 < 16 ∧ ([⟨[1], []⟩] : List Entry) ≠ [] ∧
      ∀ e ∈ ([⟨[1], []⟩] : List Entry), e.value = []) ∧
    ((∀ bottom : Bool, compact_generate_sst_from_iter 16 [] bottom = []) ∧
      compact_generate_sst_from_iter 16 [⟨[1], []⟩] true = [[]]) :=
  ⟨⟨by decide, by decide, by decide⟩,
    compact_generate_empty_and_all_tombstone_cases 16 [⟨[1], []⟩] (by decide)
      (by decide) (by decide)⟩

/-- `LsmStorageState`, the parts the compaction core manipulates: L0 SST ids
newest first, the levels (level number with its id list), and the id-to-handle
map `sstables`; the `HashMap` is modelled extensionally as a function and an
SST handle is represented by its id. -/
structure LsmStorageState where
  l0_sstables : List Nat
  levels : List (Nat × List Nat)
  sstables : Nat → Option Nat

/-- `SimpleLeveledCompactionTask` as consumed by compact.rs (destructured at
lines 200-205, `is_lower_level_bottom_level` read at line 44). -/
structure SimpleLeveledCompactionTask where
  upper_level : Option Nat
  upper_level_sst_ids : List Nat
  lower_level : Nat
  lower_level_sst_ids : List Nat
  is_lower_level_bottom_level : Bool
  deriving Repr, DecidableEq

/-- Modelled from the spec: `TieredCompactionTask` (tiered.rs is not among
the provided sources); §4.6 tiered tasks name the participating tiers (tier
id with its SST ids) and record `bottom_tier_included`, the field
`compact_to_bottom_level` reads at compact.rs line 45. -/
structure TieredCompactionTask where
  tiers : List (Nat × List Nat)
  bottom_tier_included : Bool
  deriving Repr, DecidableEq

/-- Modelled from the spec: `LeveledCompactionTask` (leveled.rs is not among
the provided sources); only the field the compaction core reads at
compact.rs line 43 plus the input/placement ids of §4.6. -/
structure LeveledCompactionTask where
  upper_level : Option Nat
  upper_level_sst_ids : List Nat
  lower_level : Nat
  lower_level_sst_ids : List Nat
  is_lower_level_bottom_level : Bool
  deriving Repr, DecidableEq

/-- `CompactionTask` (compact.rs lines 28-37). -/
inductive CompactionTask where
  | leveled (t : LeveledCompactionTask)
  | tiered (t : TieredCompactionTask)
  | simple (t : SimpleLeveledCompactionTask)
  | forceFullCompaction (l0_sstables l1_sstables : List Nat)
  deriving Repr, DecidableEq

/-- `CompactionTask::compact_to_bottom_level` (compact.rs lines 40-47). -/
def CompactionTask.compact_to_bottom_level : CompactionTask → Bool
  | .forceFullCompaction _ _ => true
  | .leveled t => t.is_lower_level_bottom_level
  | .simple t => t.is_lower_level_bottom_level
  | .tiered t => t.bottom_tier_included

/-- The shape of the merging iterator `LsmStorageInner::compact` builds over
which SST id lists. -/
inductive IterPlan where
  | twoMergeL0WithConcat (l0 lower : List Nat)
  | twoMergeConcatWithConcat (upper lower : List Nat)
  | panicUnimplemented
  deriving Repr, DecidableEq

/-- The iterator construction of `LsmStorageInner::compact` (compact.rs lines
167-245): `ForceFullCompaction` builds `TwoMergeIterator(MergeIterator` of
one `SsTableIterator` per L0 SST`, SstConcatIterator(L1))`; a Simple task
with a non-L0 upper level builds `TwoMergeIterator(SstConcatIterator(upper),
SstConcatIterator(lower))`; a Simple task with L0 upper builds
`TwoMergeIterator(MergeIterator(upper), SstConcatIterator(lower))`; every
other task variant falls to the catch-all arm at line 243, which is
`unimplemented!()` and panics. -/
def compactIterPlan : CompactionTask → IterPlan
  | .forceFullCompaction l0 l1 => .twoMergeL0WithConcat l0 l1
  | .simple t =>
      match t.upper_level with
      | some _ => .twoMergeConcatWithConcat t.upper_level_sst_ids t.lower_level_sst_ids
      | none => .twoMergeL0WithConcat t.upper_level_sst_ids t.lower_level_sst_ids
  | .tiered _ => .panicUnimplemented
  | .leveled _ => .panicUnimplemented

/-- C5: for every Tiered compaction task the executor reaches the
`unimplemented!()` arm of `compact` and panics; no merging iterator (in
particular no `MergeIterator` of per-tier `SstConcatIterator`s) is ever
built, contrary to the specified tiered iterator selection. -/
theorem compact_tiered_task_hits_unimplemented (t : TieredCompactionTask) :
    compactIterPlan (.tiered t) = .panicUnimplemented := rfl

/-- Insert an SST handle under its id (`HashMap::insert`, extensionally). -/
def insertSst (m : Nat → Option Nat) (sid : Nat) : Nat → Option Nat :=
  fun k => if k = sid then some sid else m k

/-- The insert loop of `trigger_compaction` (compact.rs lines 318-321):
insert each new SST, asserting its id was absent; `none` models the
`assert!(result.is_none())` panic. -/
def insertAllNew (m : Nat → Option Nat) : List Nat → Option (Nat → Option Nat)
  | [] => some m
  | sid :: rest =>
      if (m sid).isSome then none
      else insertAllNew (insertSst m sid) rest

/-- The removal loop of `trigger_compaction` (compact.rs lines 326-331):
remove each displaced id, asserting it was present, and collect the removed
handles; `none` models the `assert!(result.is_some(), ...)` panic. -/
def removeAllOld (m : Nat → Option Nat) :
    List Nat → Option ((Nat → Option Nat) × List Nat)
  | [] => some (m, [])
  | fid :: rest =>
      match m fid with
      | none => none
      | some h =>
          match removeAllOld (fun k => if k = fid then none else m k) rest with
          | none => none
          | some (m2, hs) => some (m2, h :: hs)

/-- Outcome of one `trigger_compaction` call: `Ok(())`, an `Err` return, or a
panic from a failed `assert!`. -/
inductive TriggerOutcome where
  | ok
  | err
  | panicked
  deriving Repr, DecidableEq

/-- The external effects one `trigger_compaction` run consumes: the task the
strategy generates (compact.rs lines 58-71 wrap controller output only in the
`Leveled` / `Simple` / `Tiered` variants, never `ForceFullCompaction`), the
result of `compact` (ids of the generated SSTs, or a failure), the matching
controller's `apply_compaction_result` as a function of the snapshot it is
handed (leveled.rs / simple_leveled.rs / tiered.rs are not among the provided
sources, so the per-strategy apply step stays an oracle closed over the task
and output list; the dispatch itself, including its `unreachable!()` arm, is
in compact.rs lines 73-91 and is modelled in `trigger_compaction`), and
whether unlinking each displaced SST file succeeds. -/
structure TriggerEnv where
  task : Option CompactionTask
  compactResult : Except Unit (List Nat)
  applyResult : LsmStorageState → LsmStorageState × List Nat
  removeFileOk : Nat → Bool

/-- `LsmStorageInner::trigger_compaction` (compact.rs lines 302-347), run
single-threaded against current state `st`: generate a task (none means
nothing to do), run `compact`, insert the new SSTs into a re-read snapshot,
call `apply_compaction_result` — whose dispatch (compact.rs lines 79-90)
routes a `Leveled` / `Simple` / `Tiered` task to its controller (the oracle
`env.applyResult`) and panics at `unreachable!()` on a `ForceFullCompaction`
task — remove the displaced ids, publish the new state, then unlink the
displaced files, any unlink failure returning `Err` after the publish.
Returns the outcome paired with the shared state as observable after the
call. -/
def trigger_compaction (st : LsmStorageState) (env : TriggerEnv) :
    TriggerOutcome × LsmStorageState :=
  match env.task with
  | none => (.ok, st)
  | some task =>
    match env.compactResult with
    | .error _ => (.err, st)
    | .ok output =>
      match insertAllNew st.sstables output with
      | none => (.panicked, st)
      | some m1 =>
        match task with
        | .forceFullCompaction _ _ => (.panicked, st)
        | _ =>
          let withNew : LsmStorageState := { st with sstables := m1 }
          let applied := env.applyResult withNew
          match removeAllOld applied.1.sstables applied.2 with
          | none => (.panicked, st)
          | some (m2, removed) =>
            let committed : LsmStorageState := { applied.1 with sstables := m2 }
            if removed.all env.removeFileOk then (.ok, committed)
            else (.err, committed)

/-- Concrete starting state for the C2 counterexample: one L0 SST with id 1,
L1 empty. -/
def triggerSt0 : LsmStorageState :=
  { l0_sstables := [1]
    levels := [(1, [])]
    sstables := fun k => if k = 1 then some 1 else none }

/-- The task of the C2 counterexample: the `Simple` task the simple-leveled
strategy generates from `triggerSt0` once the L0 trigger fires
(spec 4.6: compact all of L0 and all of L1 into L1, here the deepest
level), wrapped in `CompactionTask::Simple` by `generate_compaction_task`
(compact.rs lines 63-65). -/
def simpleTask0 : SimpleLeveledCompactionTask :=
  { upper_level := none
    upper_level_sst_ids := [1]
    lower_level := 1
    lower_level_sst_ids := []
    is_lower_level_bottom_level := true }

/-- Concrete environment for the C2 counterexample: the strategy generates
`simpleTask0`, the compaction succeeds with output SST 2, the simple-leveled
apply step behaves as specified for that task (drop the L0 input from
`l0_sstables`, set L1 to exactly the output ids, retire the inputs), and
unlinking the retired file fails. -/
def triggerEnv0 : TriggerEnv :=
  { task := some (.simple simpleTask0)
    compactResult := .ok [2]
    applyResult := fun s => ({ s with l0_sstables := [], levels := [(1, [2])] }, [1])
    removeFileOk := fun _ => false }

/-- Counterexample for C2: `trigger_compaction` returns an error (the unlink
of the displaced file failed), yet the shared state is not what it was before
the invocation: the commit had already been published. -/
theorem trigger_compaction_err_with_changed_state :
    (trigger_compaction triggerSt0 triggerEnv0).1 = .err ∧
    (trigger_compaction triggerSt0 triggerEnv0).2.l0_sstables ≠
      triggerSt0.l0_sstables := by
  constructor
  · rfl
  · intro h
    simp [trigger_compaction, triggerSt0, triggerEnv0, insertAllNew, insertSst,
      removeAllOld] at h

/-- C2 (amended): an error raised before the commit point, that is a failure
of `compact` itself on a generated task, leaves the shared state exactly
unchanged; only unlink errors after the publish escape this guarantee. -/
theorem trigger_compaction_compact_error_preserves_state
    (st : LsmStorageState) (env : TriggerEnv) (t : CompactionTask)
    (h1 : env.task = some t) (h2 : env.compactResult = .error ()) :
    trigger_compaction st env = (.err, st) := by
  unfold trigger_compaction
  rw [h1, h2]

/-- Witness for the amended C2 at a concrete state and environment: the
strategy generates the Simple task of `simpleTask0` and `compact` fails. -/
theorem trigger_compaction_compact_error_preserves_state_witness :
    (({ task := some (.simple simpleTask0)
        compactResult := .error ()
        applyResult := fun s => (s, [])
        removeFileOk := fun _ => true } : TriggerEnv).task =
          some (.simple simpleTask0) ∧
      ({ task := some (.simple simpleTask0)
         compactResult := .error ()
         applyResult := fun s => (s, [])
         removeFileOk := fun _ => true } : TriggerEnv).compactResult = .error ()) ∧
    trigger_compaction triggerSt0
      { task := some (.simple simpleTask0)
        compactResult := .error ()
        applyResult := fun s => (s, [])
        removeFileOk := fun _ => true } = (.err, triggerSt0) :=
  ⟨⟨rfl, rfl⟩,
    trigger_compaction_compact_error_preserves_state triggerSt0 _
      (.simple simpleTask0) rfl rfl⟩

/-- The L0 rebuild of `force_full_compaction` (compact.rs lines 277-283):
`filter(|x| !l0_sstables_map.remove(x))` over the current `l0_sstables`,
threading the `HashSet` of captured L0 ids (`remove` returns whether the
element was present, so only the first occurrence of a captured id is
dropped).  Returns the kept ids and the leftover set checked by the
`assert!` at line 284. -/
def removeCapturedL0 : List Nat → List Nat → List Nat × List Nat
  | [], s => ([], s)
  | x :: xs, s =>
      if x ∈ s then
        let r := removeCapturedL0 xs (s.erase x)
        (r.1, r.2)
      else
        let r := removeCapturedL0 xs s
        (x :: r.1, r.2)

/-- `state.levels[0].1 = ids` (compact.rs line 287): replace the first
level's id list. -/
def setFirstLevel (levels : List (Nat × List Nat)) (ids : List Nat) :
    List (Nat × List Nat) :=
  match levels with
  | [] => []
  | (lv, _) :: rest => (lv, ids) :: rest

/-- The commit block of `force_full_compaction` (compact.rs lines 266-293),
applied to the state `cur` re-read under the state lock: remove every
captured L0/L1 id from `sstables`, rebuild `l0_sstables` through the
`HashSet::remove` filter (asserting every captured id was found), overwrite
the first level's id list with the output ids, and insert the new SSTs.
`none` models the `assert!` panic and the `levels[0]` index panic on an
empty level list. -/
def forceFullCommit (capturedL0 capturedL1 : List Nat) (cur : LsmStorageState)
    (newIds : List Nat) : Option LsmStorageState :=
  if cur.levels.isEmpty then none
  else
    let m1 := fun k => if k ∈ capturedL0 ++ capturedL1 then none else cur.sstables k
    let r := removeCapturedL0 cur.l0_sstables capturedL0.dedup
    if r.2.isEmpty then
      some { l0_sstables := r.1
             levels := setFirstLevel cur.levels newIds
             sstables := fun k => if k ∈ newIds then some k else m1 k }
    else none

/-- `LsmStorageInner::force_full_compaction` (compact.rs lines 247-300), run
single-threaded: capture the snapshot's L0 and first-level id lists, compact
them (the built SSTs arrive as the oracle id list `newIds`, fresh ids from
`next_sst_id`), then run the commit block; with no interleaved writer the
state at commit time is the starting state.  `none` models a panic
(`snapshot.levels[0]` on an empty level list, or a failed `assert!`). -/
def force_full_compaction (st : LsmStorageState) (newIds : List Nat) :
    Option LsmStorageState :=
  if st.levels.isEmpty then none
  else forceFullCommit st.l0_sstables st.levels.headI.2 st newIds

lemma removeCapturedL0_eq_filter (xs : List Nat) :
    ∀ s : List Nat, xs.Nodup → s.Nodup → (∀ a ∈ s, a ∈ xs) →
      removeCapturedL0 xs s = (xs.filter (fun x => !decide (x ∈ s)), []) := by
  induction xs with
  | nil =>
    intro s _ _ hsub
    have hs : s = [] := List.eq_nil_iff_forall_not_mem.mpr
      (fun a ha => (List.not_mem_nil a) (hsub a ha))
    subst hs
    rfl
  | cons x xs ih =>
    intro s hnd hsnd hsub
    have hxnotin : x ∉ xs := (List.nodup_cons.mp hnd).1
    have hxsnd : xs.Nodup := (List.nodup_cons.mp hnd).2
    rw [removeCapturedL0]
    by_cases hx : x ∈ s
    · rw [if_pos hx]
      have hsub2 : ∀ a ∈ s.erase x, a ∈ xs := by
        intro a ha
        have hane : a ≠ x := by
          intro hax
          subst hax
          exact (List.Nodup.not_mem_erase hsnd) ha
        have has : a ∈ s := List.mem_of_mem_erase ha
        rcases List.mem_cons.mp (hsub a has) with h | h
        · exact absurd h hane
        · exact h
      rw [ih (s.erase x) hxsnd (List.Nodup.erase x hsnd) hsub2]
      have hfc : xs.filter (fun a => !decide (a ∈ s.erase x)) =
          xs.filter (fun a => !decide (a ∈ s)) := by
        apply List.filter_congr
        intro a ha
        have hane : a ≠ x := fun hax => hxnotin (hax ▸ ha)
        have : a ∈ s.erase x ↔ a ∈ s := by
          rw [List.Nodup.mem_erase_iff hsnd]
          exact ⟨fun h => h.2, fun h => ⟨hane, h⟩⟩
        simp [this]
      rw [hfc]
      simp [List.filter_cons, hx]
    · rw [if_neg hx]
      have hsub2 : ∀ a ∈ s, a ∈ xs := by
        intro a ha
        rcases List.mem_cons.mp (hsub a ha) with h | h
        · exact absurd (h ▸ ha) hx
        · exact h
      rw [ih s hxsnd hsnd hsub2]
      simp [List.filter_cons, hx]

/-- C8: the commit of `force_full_compaction` drops from `l0_sstables` only
the ids captured in its snapshot: against any commit-time state containing
the captured L0 ids, the new `l0_sstables` is exactly the old one filtered of
captured ids (so ids flushed in between survive in their original relative
order), and all levels but the first are untouched. -/
theorem force_full_commit_preserves_uncaptured_l0
    (capturedL0 capturedL1 : List Nat) (cur : LsmStorageState) (newIds : List Nat)
    (hlv : cur.levels ≠ [])
    (hnd : cur.l0_sstables.Nodup)
    (hsub : ∀ a ∈ capturedL0, a ∈ cur.l0_sstables) :
    ∃ st2, forceFullCommit capturedL0 capturedL1 cur newIds = some st2 ∧
      st2.l0_sstables =
        cur.l0_sstables.filter (fun x => !decide (x ∈ capturedL0)) ∧
      st2.levels.tail = cur.levels.tail := by
  have hie : cur.levels.isEmpty = false := by
    cases h : cur.levels with
    | nil => exact absurd h hlv
    | cons a l => rfl
  have hfil := removeCapturedL0_eq_filter cur.l0_sstables capturedL0.dedup hnd
    (List.nodup_dedup _) (fun a ha => hsub a (List.mem_dedup.mp ha))
  refine
    ⟨{ l0_sstables := cur.l0_sstables.filter (fun x => !decide (x ∈ capturedL0.dedup)),
       levels := setFirstLevel cur.levels newIds,
       sstables := fun k => if k ∈ newIds then some k
         else if k ∈ capturedL0 ++ capturedL1 then none
         else cur.sstables k }, ?_, ?_, ?_⟩
  · unfold forceFullCommit
    rw [hie]
    simp only [Bool.false_eq_true, if_false, hfil]
    rfl
  · simp only
    apply List.filter_congr
    intro a _
    simp [List.mem_dedup]
  · obtain ⟨p, rest, hcl⟩ : ∃ p rest, cur.levels = p :: rest := by
      cases h : cur.levels with
      | nil => exact absurd h hlv
      | cons a l => exact ⟨a, l, rfl⟩
    simp only [hcl]
    cases p
    rfl

/-- Commit-time state for the C8 witness: L0 id 5 was flushed after the
snapshot that captured id 3. -/
def commitCur0 : LsmStorageState :=
  { l0_sstables := [5, 3]
    levels := [(1, []), (2, [9])]
    sstables := fun _ => none }

/-- Witness for C8: snapshot captured L0 id 3; by commit time a flush has
prepended id 5; id 5 survives and the deeper levels are unchanged. -/
theorem force_full_commit_preserves_uncaptured_l0_witness :
    (commitCur0.levels ≠ [] ∧ commitCur0.l0_sstables.Nodup ∧
      ∀ a ∈ [3], a ∈ commitCur0.l0_sstables) ∧
    ∃ st2, forceFullCommit [3] [] commitCur0 [7] = some st2 ∧
      st2.l0_sstables =
        commitCur0.l0_sstables.filter (fun x => !decide (x ∈ [3])) ∧
      st2.levels.tail = commitCur0.levels.tail :=
  ⟨⟨by decide, by decide, by decide⟩,
    force_full_commit_preserves_uncaptured_l0 [3] [] commitCur0 [7] (by decide)
      (by decide) (by decide)⟩

/-- C3: a successful sequential `force_full_compaction` leaves the first
level holding exactly the output ids in production order, removes every
captured L0/L1 id from `l0_sstables`, from every level and from `sstables`,
and makes every output id present in `sstables`.  The hypotheses are the
engine invariants: a nonempty level list, no duplicate L0 ids, output ids
fresh, and captured ids absent from deeper levels. -/
theorem force_full_compaction_commit_effects (st : LsmStorageState)
    (newIds : List Nat)
    (hlv : st.levels ≠ [])
    (hnd : st.l0_sstables.Nodup)
    (hfresh : ∀ i ∈ newIds, i ∉ st.l0_sstables ∧ i ∉ st.levels.headI.2)
    (hother : ∀ lvl ∈ st.levels.tail, ∀ i,
      i ∈ st.l0_sstables ∨ i ∈ st.levels.headI.2 → i ∉ lvl.2) :
    ∃ st2, force_full_compaction st newIds = some st2 ∧
      st2.levels.headI.2 = newIds ∧
      (∀ i, i ∈ st.l0_sstables ∨ i ∈ st.levels.headI.2 →
        i ∉ st2.l0_sstables ∧ (∀ lvl ∈ st2.levels, i ∉ lvl.2) ∧
        st2.sstables i = none) ∧
      (∀ i ∈ newIds, st2.sstables i = some i) := by
  have hie : st.levels.isEmpty = false := by
    cases h : st.levels with
    | nil => exact absurd h hlv
    | cons a l => rfl
  obtain ⟨p, rest, hcl⟩ : ∃ p rest, st.levels = p :: rest := by
    cases h : st.levels with
    | nil => exact absurd h hlv
    | cons a l => exact ⟨a, l, rfl⟩
  have hfil := removeCapturedL0_eq_filter st.l0_sstables st.l0_sstables.dedup hnd
    (List.nodup_dedup _) (fun a ha => List.mem_dedup.mp ha)
  have hl0nil : st.l0_sstables.filter
      (fun x => !decide (x ∈ st.l0_sstables.dedup)) = [] := by
    apply List.filter_eq_nil_iff.mpr
    intro a ha
    simp [List.mem_dedup, ha]
  refine
    ⟨{ l0_sstables := [],
       levels := setFirstLevel st.levels newIds,
       sstables := fun k => if k ∈ newIds then some k
         else if k ∈ st.l0_sstables ++ st.levels.headI.2 then none
         else st.sstables k }, ?_, ?_, ?_, ?_⟩
  · unfold force_full_compaction forceFullCommit
    rw [hie]
    simp only [Bool.false_eq_true, if_false, hfil, hl0nil]
    rfl
  · simp only [hcl]
    obtain ⟨lv, ids⟩ := p
    rfl
  · intro i hi
    refine ⟨?_, ?_, ?_⟩
    · exact List.not_mem_nil i
    · intro lvl hlvl
      simp only [hcl] at hlvl
      obtain ⟨lv, ids⟩ := p
      simp only [setFirstLevel] at hlvl
      rcases List.mem_cons.mp hlvl with h | h
      · subst h
        intro hmem
        simp only at hmem
        rcases hi with hc | hc
        · exact (hfresh i hmem).1 hc
        · exact (hfresh i hmem).2 hc
      · have := hother lvl (by rw [hcl]; exact h) i hi
        exact this
    · have hninew : i ∉ newIds := by
        intro hmem
        rcases hi with hc | hc
        · exact (hfresh i hmem).1 hc
        · exact (hfresh i hmem).2 hc
      simp only
      rw [if_neg hninew, if_pos]
      rcases hi with hc | hc
      · exact List.mem_append.mpr (Or.inl hc)
      · exact List.mem_append.mpr (Or.inr hc)
  · intro i hi
    simp only
    rw [if_pos hi]

/-- Starting state for the C3 witness: two L0 SSTs (ids 2, 1), L1 holds id 3,
L2 holds id 9. -/
def fullSt0 : LsmStorageState :=
  { l0_sstables := [2, 1]
    levels := [(1, [3]), (2, [9])]
    sstables := fun k => if k = 1 ∨ k = 2 ∨ k = 3 ∨ k = 9 then some k else none }

/-- Witness for C3: compacting L0 = {2, 1} and L1 = {3} into outputs 10, 11
puts exactly [10, 11] in L1, drops 1, 2, 3 everywhere, and registers 10, 11. -/
theorem force_full_compaction_commit_effects_witness :
    (fullSt0.levels ≠ [] ∧ fullSt0.l0_sstables.Nodup ∧
      (∀ i ∈ [10, 11], i ∉ fullSt0.l0_sstables ∧ i ∉ fullSt0.levels.headI.2) ∧
      (∀ lvl ∈ fullSt0.levels.tail, ∀ i,
        i ∈ fullSt0.l0_sstables ∨ i ∈ fullSt0.levels.headI.2 → i ∉ lvl.2)) ∧
    ∃ st2, force_full_compaction fullSt0 [10, 11] = some st2 ∧
      st2.levels.headI.2 = [10, 11] ∧
      (∀ i, i ∈ fullSt0.l0_sstables ∨ i ∈ fullSt0.levels.headI.2 →
        i ∉ st2.l0_sstables ∧ (∀ lvl ∈ st2.levels, i ∉ lvl.2) ∧
        st2.sstables i = none) ∧
      (∀ i ∈ [10, 11], st2.sstables i = some i) := by
  have hother : ∀ lvl ∈ fullSt0.levels.tail, ∀ i,
      i ∈ fullSt0.l0_sstables ∨ i ∈ fullSt0.levels.headI.2 → i ∉ lvl.2 := by
    intro lvl hlvl i hi
    simp only [fullSt0] at hlvl hi
    simp at hlvl hi
    subst hlvl
    simp
    omega
  exact ⟨⟨by decide, by decide, by decide, hother⟩,
    force_full_compaction_commit_effects fullSt0 [10, 11] (by decide) (by decide)
      (by decide) hother⟩

/-- Modelled from the spec: `Block` (block.rs is not among the provided
sources).  The claims on the reader need only that `Block::decode` consumes
exactly the byte range read for the block, so a block is represented by the
raw bytes handed to `Block::decode`. -/
abbrev BlockModel := List Nat

/-- `FileObject::read` (table.rs lines 78-86): `read_exact_at` fills the
whole buffer or fails with an I/O error, so reading succeeds exactly when
`[offset, offset + len)` lies inside the file. -/
def fileRead (file : List Nat) (offset len : Nat) : Except Unit (List Nat) :=
  if offset + len ≤ file.length then .ok ((file.drop offset).take len)
  else .error ()

/-- `SsTable` (table.rs lines 110-124), the fields the reader uses; the
block cache handle is modelled by the cache contents it currently holds,
keyed by `(sst_id, block_idx)`. -/
structure SsTableModel where
  id : Nat
  file : List Nat
  block_metas : List BlockMeta
  block_meta_offset : Nat
  first_key : KeyB
  last_key : KeyB
  block_cache : Option ((Nat × Nat) → Option BlockModel)

/-- Result of `read_block` / `read_block_cached`: a decoded block, an I/O
error return, or a panic (slice index out of bounds, or a debug-build u64
underflow when the meta offsets are inconsistent). -/
inductive ReadBlockResult where
  | ok (b : BlockModel)
  | ioError
  | panicIndex
  | panicOverflow
  deriving Repr, DecidableEq

/-- `SsTable::read_block` (table.rs lines 181-189): the block's byte range is
`[metas[idx].offset, metas[idx+1].offset)`, falling back to
`block_meta_offset` for the last block; the range is read and decoded. -/
def read_block (t : SsTableModel) (block_idx : Nat) : ReadBlockResult :=
  match t.block_metas.get? block_idx with
  | none => .panicIndex
  | some meta =>
      let nextOffset :=
        match t.block_metas.get? (block_idx + 1) with
        | some m2 => m2.offset
        | none => t.block_meta_offset
      if nextOffset < meta.offset then .panicOverflow
      else
        match fileRead t.file meta.offset (nextOffset - meta.offset) with
        | .ok data => .ok data
        | .error _ => .ioError

/-- `SsTable::read_block_cached` (table.rs lines 192-201): with a block cache
present, `try_get_with((id, idx), read_block)` returns the cached block or
fills the cache from `read_block` (errors propagate, mapped through
`anyhow!`); with no cache it calls `read_block` directly.  Returned alongside
the result are the cache contents after the call. -/
def read_block_cached (t : SsTableModel) (block_idx : Nat) :
    ReadBlockResult × Option ((Nat × Nat) → Option BlockModel) :=
  match t.block_cache with
  | some cache =>
      match cache (t.id, block_idx) with
      | some b => (.ok b, some cache)
      | none =>
          match read_block t block_idx with
          | .ok b =>
              (.ok b,
                some (fun k => if k = (t.id, block_idx) then some b else cache k))
          | r => (r, some cache)
  | none => (read_block t block_idx, none)

/-- C10: on an SST opened without a block cache, `read_block_cached` is
exactly `read_block` (and touches no cache). -/
theorem read_block_cached_without_cache (t : SsTableModel) (block_idx : Nat)
    (h : t.block_cache = none) :
    read_block_cached t block_idx = (read_block t block_idx, none) := by
  unfold read_block_cached
  rw [h]

/-- A one-block SST with no block cache, for the C10 witness: one block of
two bytes followed by its meta record and the meta-offset trailer. -/
def cachelessSst : SsTableModel :=
  { id := 0
    file := [7, 8] ++ encode_block_metas [⟨0, [7], [8]⟩] ++ putU32 2
    block_metas := [⟨0, [7], [8]⟩]
    block_meta_offset := 2
    first_key := [7]
    last_key := [8]
    block_cache := none }

/-- Witness for C10 at the concrete cacheless SST and block index 0. -/
theorem read_block_cached_without_cache_witness :
    cachelessSst.block_cache = none ∧
    read_block_cached cachelessSst 0 = (read_block cachelessSst 0, none) :=
  ⟨rfl, read_block_cached_without_cache cachelessSst 0 rfl⟩

/-- Result of `SsTable::open`: a table, an I/O error return, or one of the
panics the open path can take: a debug-build u64 underflow (file shorter
than the 4-byte trailer, or `meta_offset` past `len - 4`), a panic of the
`bytes` getters on a truncated meta record, or the `.first()/.last()`
unwrap panic when no meta was decoded. -/
inductive OpenResult where
  | ok (t : SsTableModel)
  | ioError
  | panicOverflow
  | panicDecode
  | panicNoMeta

/-- `SsTable::open` (table.rs lines 133-158): read the trailing 4 bytes as
`meta_offset` (the subtraction `len - 4` underflows first on short files),
read and decode the meta region `[meta_offset, len - 4)` (the length
`len - meta_offset - 4` underflows when `meta_offset > len - 4`), read the
data region, then derive `first_key` / `last_key` by unwrapping the first
and last decoded metas. -/
def sstOpen (id : Nat) (bc : Option ((Nat × Nat) → Option BlockModel))
    (file : List Nat) : OpenResult :=
  if file.length < 4 then .panicOverflow
  else
    match fileRead file (file.length - 4) 4 with
    | .error _ => .ioError
    | .ok raw4 =>
      let mo := getU32 raw4
      if file.length < mo + 4 then .panicOverflow
      else
        match fileRead file mo (file.length - mo - 4) with
        | .error _ => .ioError
        | .ok rawMeta =>
          match decode_block_metas rawMeta with
          | none => .panicDecode
          | some metas =>
            match fileRead file 0 mo with
            | .error _ => .ioError
            | .ok _ =>
              match metas.head?, metas.getLast? with
              | some m1, some m2 =>
                  .ok { id := id
                        file := file
                        block_metas := metas
                        block_meta_offset := mo
                        first_key := m1.first_key
                        last_key := m2.last_key
                        block_cache := bc }
              | _, _ => .panicNoMeta

/-- Counterexample for C6: the 4-byte file `[0,0,0,0]` has `meta_offset = 0`
and an empty meta region, so zero block metas are decoded — and `open`
panics unwrapping `metas.first()` instead of returning a distinct format
error (or any error at all). -/
theorem sstOpen_zero_metas_panics_not_error :
    sstOpen 0 none [0, 0, 0, 0] = .panicNoMeta := rfl

/-- C6 (amended): the failure modes of `SsTable::open` are not distinct
format-error returns: a file shorter than the 4-byte trailer panics on the
debug-build underflow of `len - 4`; a `meta_offset` past `len - 4` panics on
the underflow of `len - meta_offset - 4`; a file whose meta region decodes
to zero metas panics unwrapping `metas.first()`. -/
theorem sstOpen_failure_modes (file : List Nat) :
    (file.length < 4 → sstOpen 0 none file = .panicOverflow) ∧
    (4 ≤ file.length →
      file.length < getU32 ((file.drop (file.length - 4)).take 4) + 4 →
      sstOpen 0 none file = .panicOverflow) ∧
    (4 ≤ file.length →
      getU32 ((file.drop (file.length - 4)).take 4) = file.length - 4 →
      sstOpen 0 none file = .panicNoMeta) := by
  have hread4 : 4 ≤ file.length →
      fileRead file (file.length - 4) 4 =
        .ok ((file.drop (file.length - 4)).take 4) := by
    intro h4
    unfold fileRead
    rw [if_pos (by omega)]
  refine ⟨?_, ?_, ?_⟩
  · intro h
    unfold sstOpen
    rw [if_pos h]
  · intro h4 hlt
    unfold sstOpen
    rw [if_neg (by omega), hread4 h4]
    dsimp only
    rw [if_pos hlt]
  · intro h4 hmo
    unfold sstOpen
    rw [if_neg (by omega), hread4 h4]
    dsimp only
    rw [hmo, if_neg (by omega)]
    have hz : file.length - (file.length - 4) - 4 = 0 := by omega
    rw [hz]
    have hr0 : fileRead file (file.length - 4) 0 = .ok [] := by
      unfold fileRead
      rw [if_pos (by omega)]
      simp
    rw [hr0]
    dsimp only
    have hr3 : fileRead file 0 (file.length - 4) =
        .ok ((file.drop 0).take (file.length - 4)) := by
      unfold fileRead
      rw [if_pos (by omega)]
    rw [hr3]
    rfl

/-- Witness for the amended C6 at three concrete files: a 1-byte file, a
4-byte file whose trailer points past the end, and the 4-byte zero-meta
file. -/
theorem sstOpen_failure_modes_witness :
    (([9] : List Nat).length < 4 ∧ sstOpen 0 none [9] = .panicOverflow) ∧
    (4 ≤ ([0, 0, 0, 8] : List Nat).length ∧
      ([0, 0, 0, 8] : List Nat).length <
        getU32 ((([0, 0, 0, 8] : List Nat).drop
          (([0, 0, 0, 8] : List Nat).length - 4)).take 4) + 4 ∧
      sstOpen 0 none [0, 0, 0, 8] = .panicOverflow) ∧
    (4 ≤ ([0, 0, 0, 0] : List Nat).length ∧
      getU32 ((([0, 0, 0, 0] : List Nat).drop
          (([0, 0, 0, 0] : List Nat).length - 4)).take 4) =
        ([0, 0, 0, 0] : List Nat).length - 4 ∧
      sstOpen 0 none [0, 0, 0, 0] = .panicNoMeta) :=
  ⟨⟨by decide, (sstOpen_failure_modes [9]).1 (by decide)⟩,
    ⟨by decide, by decide,
      (sstOpen_failure_modes [0, 0, 0, 8]).2.1 (by decide) (by decide)⟩,
    ⟨by decide, by decide,
      (sstOpen_failure_modes [0, 0, 0, 0]).2.2 (by decide) (by decide)⟩⟩

end MiniLsm
